import Mathlib

/-!
Verification development for the itn-api reporting core.

The Python sources embedded here are `src/itn_api/helpers.py` and
`src/itn_api/reports.py`.  Python strings are modelled as `List Char`
(named `Str`), Python dicts of lists as association lists in insertion
order, and fallible code (KeyError, ZeroDivisionError, strptime
ValueError) as `Option`-returning functions.  Machine integers are
`Nat`/`Int`; the two places the source applies `int(...)` to a float
quotient are modelled with exact integer division and carry a comment
justifying exactness on the reachable inputs.
-/

/-- Python strings, modelled as lists of characters. -/
abbrev Str := List Char

/-- Python `s.rsplit(c, 1)[0]`: everything before the last occurrence of
`c`, or the whole string when `c` does not occur. -/
def rsplitLast (c : Char) (s : Str) : Str :=
  match s.reverse.dropWhile (fun x => x ≠ c) with
  | [] => s
  | _ :: rest => rest.reverse

/-- Python `s.strip()`: drop leading and trailing whitespace. -/
def stripChars (s : Str) : Str :=
  ((s.dropWhile Char.isWhitespace).reverse.dropWhile Char.isWhitespace).reverse

/-- Python `s.split(c)` for a single separator character. -/
def splitOnChar (c : Char) (s : Str) : List Str :=
  s.foldr
    (fun ch acc =>
      match acc with
      | [] => [[ch]]
      | cur :: rest => if ch = c then [] :: cur :: rest else (ch :: cur) :: rest)
    [[]]

/-- Value of a string of decimal digits (as read by `strptime`). -/
def digitsToNat (s : Str) : Nat :=
  s.foldl (fun acc c => acc * 10 + (c.toNat - ('0' : Char).toNat)) 0

/-- Lexicographic strict order on strings (Python `str.__lt__`:
code-point comparison, a proper prefix is smaller). -/
def strLt : Str → Str → Bool
  | [], [] => false
  | [], _ :: _ => true
  | _ :: _, [] => false
  | a :: as, b :: bs => if a < b then true else if a = b then strLt as bs else false

/-- Stable insertion of `x` into an already-sorted list: `x` is placed
after every element it does not strictly precede.  Together with
`pySorted` this models Python's stable `list.sort` / `sorted`; any two
stable sorts agree extensionally, so insertion sort is a faithful model
of timsort. -/
def stableInsert (lt : α → α → Bool) (x : α) : List α → List α
  | [] => [x]
  | y :: ys => if lt x y then x :: y :: ys else y :: stableInsert lt x ys

/-- Python `sorted(l)` with strict comparator `lt` (stable, ascending). -/
def pySorted (lt : α → α → Bool) (l : List α) : List α :=
  l.foldl (fun acc x => stableInsert lt x acc) []

/-- First-occurrence de-duplication; models the key order of a Python
dict / `collections.Counter` built by successive insertion. -/
def firstDedup : List Str → List Str
  | [] => []
  | a :: l => a :: (firstDedup l).filter (fun x => x ≠ a)

/-! ## helpers.py -/

/-- `helpers.MINUTES_DAY`. -/
def MINUTES_DAY : Nat := 1440

/-- A Python dict mapping strings to lists of strings, in insertion
order (keys are unique in every dict the source builds, and all
functions below read the first matching key). -/
abbrev PyDict := List (Str × List Str)

/-- Lookup in an association-list dict (`d[k]` / `k in d`). -/
def dlookup (k : Str) : List (Str × β) → Option β
  | [] => none
  | (k', v) :: rest => if k' = k then some v else dlookup k rest

/-- `helpers.update_dict`: append `value` to `index[key]`, creating the
key (at the end, as Python dict insertion does) when absent. -/
def update_dict (index : PyDict) (key : Str) (value : Str) : PyDict :=
  match index with
  | [] => [(key, [value])]
  | (k, vs) :: rest =>
    if k = key then (k, vs ++ [value]) :: rest
    else (k, vs) :: update_dict rest key value

/-- `helpers.dedupe_dicts`: replace every value list by `list(set(...))`.
CPython's set iteration order is unspecified; `List.dedup` is one
representative, and every consumer below only reads the value lists up
to membership and distinct-count. -/
def dedupe_dicts (index : PyDict) : PyDict :=
  index.map (fun kv => (kv.1, kv.2.dedup))

/-! ### Date arithmetic (`helpers.get_minutes`)

`get_minutes` parses both strings with
`datetime.datetime.strptime(s, "%Y-%m-%d")` and returns
`int(timedelta.total_seconds() / 60)`.  Both datetimes sit at midnight,
so the timedelta is a whole number of days `Δ` and
`total_seconds() / 60 = Δ * 1440` exactly (exact in binary floating
point for every representable date range), hence the model returns
`(ordinal d2 - ordinal d1) * 1440`.  The ordinal is CPython's
`datetime.date.toordinal`. -/

/-- Proleptic-Gregorian leap-year test (CPython `datetime._is_leap`). -/
def isLeap (y : Nat) : Bool :=
  (y % 4 == 0 && y % 100 != 0) || y % 400 == 0

/-- CPython `datetime._DAYS_IN_MONTH` (with February adjusted for leap
years); `0` outside month range, which `validDate` excludes. -/
def daysInMonth (leap : Bool) (m : Nat) : Nat :=
  match m with
  | 1 => 31 | 2 => if leap then 29 else 28 | 3 => 31 | 4 => 30
  | 5 => 31 | 6 => 30 | 7 => 31 | 8 => 31
  | 9 => 30 | 10 => 31 | 11 => 30 | 12 => 31
  | _ => 0

/-- CPython `datetime._days_before_month`. -/
def daysBeforeMonth (leap : Bool) (m : Nat) : Nat :=
  let lp := if leap then 1 else 0
  match m with
  | 1 => 0 | 2 => 31 | 3 => 59 + lp | 4 => 90 + lp
  | 5 => 120 + lp | 6 => 151 + lp | 7 => 181 + lp | 8 => 212 + lp
  | 9 => 243 + lp | 10 => 273 + lp | 11 => 304 + lp | 12 => 334 + lp
  | _ => 0

/-- CPython `datetime._days_before_year`. -/
def daysBeforeYear (y : Nat) : Nat :=
  let n := y - 1
  n * 365 + n / 4 - n / 100 + n / 400

/-- A parsed calendar date. -/
structure Date where
  year : Nat
  month : Nat
  day : Nat
deriving DecidableEq, Repr

/-- CPython `datetime.date.toordinal`. -/
def toordinal (d : Date) : Nat :=
  daysBeforeYear d.year + daysBeforeMonth (isLeap d.year) d.month + d.day

/-- The range checks `datetime.date(y, m, d)` performs (`MINYEAR = 1`,
`MAXYEAR = 9999`, day bounded by the month length). -/
def validDate (d : Date) : Bool :=
  1 ≤ d.year && d.year ≤ 9999 && 1 ≤ d.month && d.month ≤ 12 &&
    1 ≤ d.day && d.day ≤ daysInMonth (isLeap d.year) d.month

/-- Calendar order on dates (year, then month, then day). -/
def dateLt (a b : Date) : Prop :=
  a.year < b.year ∨
    (a.year = b.year ∧ (a.month < b.month ∨ (a.month = b.month ∧ a.day < b.day)))

instance : DecidablePred (fun p : Date × Date => dateLt p.1 p.2) := by
  intro p; unfold dateLt; infer_instance

instance (a b : Date) : Decidable (dateLt a b) := by
  unfold dateLt; infer_instance

/-- `datetime.datetime.strptime(s, "%Y-%m-%d")`, reduced to the data the
caller uses.  CPython's format regex demands exactly four year digits
and one or two month/day digits separated by literal dashes, anchored at
both ends; the constructed `date` then enforces the range checks of
`validDate`.  Returns `none` where CPython raises `ValueError`. -/
def parseDate (s : Str) : Option Date :=
  match splitOnChar '-' s with
  | [ys, ms, ds] =>
    if ys.length = 4 && ys.all Char.isDigit &&
        1 ≤ ms.length && ms.length ≤ 2 && ms.all Char.isDigit &&
        1 ≤ ds.length && ds.length ≤ 2 && ds.all Char.isDigit then
      if validDate ⟨digitsToNat ys, digitsToNat ms, digitsToNat ds⟩ then
        some ⟨digitsToNat ys, digitsToNat ms, digitsToNat ds⟩
      else none
    else none
  | _ => none

/-- `helpers.get_minutes`: whole minutes between midnight of the two
parsed dates; `none` where `strptime` raises. -/
def get_minutes (date_str_1 date_str_2 : Str) : Option Int :=
  match parseDate date_str_1, parseDate date_str_2 with
  | some d1, some d2 =>
    some (((toordinal d2 : Int) - (toordinal d1 : Int)) * (MINUTES_DAY : Int))
  | _, _ => none

/-! ## reports.py — data model -/

/-- One row of the `data_points` query:
`select address, date_time, feed_id ... order by address`. -/
structure Observation where
  address : Str
  date_time : Str
  feed_id : Str
deriving DecidableEq, Repr

/-- `simple_sign.types.Alias` (the fields `reports.py` reads). -/
structure Alias where
  aliasName : Str
  address : Str
  staking : Str
  tx : Str
deriving DecidableEq, Repr

/-- `reports.LicenseHolder`. -/
structure LicenseHolder where
  staking : Str
  staked : Nat
  licenses : List Str
  aliasName : Str
deriving DecidableEq, Repr

/-- `reports._search_aliases`: first alias record whose staking address
matches, empty string when none does. -/
def _search_aliases (aliases : List Alias) (addr : Str) : Str :=
  match aliases with
  | [] => []
  | a :: rest => if a.staking ≠ addr then _search_aliases rest addr else a.aliasName

/-! ## reports.py — entitlement collation -/

/-- Python list comparison used when sorting by the `licenses` field:
lexicographic over string elements. -/
def licListLt : List Str → List Str → Bool
  | [], [] => false
  | [], _ :: _ => true
  | _ :: _, [] => false
  | a :: as, b :: bs => if strLt a b then true else if a = b then licListLt as bs else false

/-- Comparator of `sorted(all_holders, key=lambda h: h.licenses)`. -/
def holderLt (a b : LicenseHolder) : Bool :=
  licListLt a.licenses b.licenses

/-- The body of `_collate_simple`'s `for holder in holders` loop, after
`holders.sort()`.  `staked[holder]` is a dict subscript, so a missing
key is a `KeyError` (`none`); `int(stake / 1000000)` truncates the float
quotient, which for the non-negative stakes the source handles equals
`stake / 1000000` in `Nat`.  When `aliases` is empty (or `None`) the
`alias` local keeps its initial `""`. -/
def _collate_loop (staked : List (Str × Nat)) (licenses : List (Str × Str))
    (aliases : List Alias) : List Str → Option (List LicenseHolder)
  | [] => some []
  | holder :: rest =>
    match dlookup holder staked with
    | none => none
    | some stake =>
      let held := (licenses.filter (fun kv => kv.2 = holder)).map (fun kv => kv.1)
      let al := if aliases.isEmpty then [] else _search_aliases aliases holder
      match _collate_loop staked licenses aliases rest with
      | none => none
      | some tail =>
        some ({ staking := holder, staked := stake / 1000000,
                licenses := held, aliasName := al } :: tail)

/-- `reports._collate_simple`. -/
def _collate_simple (holders : List Str) (staked : List (Str × Nat))
    (licenses : List (Str × Str)) (aliases : List Alias) :
    Option (List LicenseHolder) :=
  match _collate_loop staked licenses aliases (pySorted strLt holders) with
  | none => none
  | some all_holders => some (pySorted holderLt all_holders)

/-- The pure core of `reports._get_all_alias_addr_data` (and of
`_get_basic_addr_data`, which calls it with `aliases = None`): the three
kupo fetches are collaborators, so their already-decoded results are
parameters.  `holders = list(set(license_holders).intersection(fact_holders))`
enumerates an unordered set; its order is irrelevant because
`_collate_simple` sorts `holders` first, so the model picks one
enumeration. -/
def _get_all_alias_addr_data (staked : List (Str × Nat))
    (licenses : List (Str × Str)) (aliases : List Alias) :
    Option (List LicenseHolder) :=
  let license_holders := licenses.map (fun kv => kv.2)
  let fact_holders := staked.map (fun kv => kv.1)
  let holders := (license_holders.filter (fun a : Str => decide (a ∈ fact_holders))).dedup
  _collate_simple holders staked licenses aliases

/-- The trailing license-number filter of `_get_all_alias_addr_data`:
when a selector is supplied, keep only holders whose license list
contains the literal name `"Validator License {license_no}"` (a Python
list-membership test, not a substring test).  The claims below concern
the unfiltered collation, i.e. the `license_no = None` path. -/
def _get_all_alias_addr_data_selected (staked : List (Str × Nat))
    (licenses : List (Str × Str)) (aliases : List Alias)
    (license_no : Option Str) : Option (List LicenseHolder) :=
  (_get_all_alias_addr_data staked licenses aliases).map (fun all =>
    match license_no with
    | none => all
    | some no =>
      all.filter (fun lic =>
        decide (("Validator License ".toList ++ no) ∈ lic.licenses)))

/-! ## reports.py — coverage aggregation -/

/-- `reports._get_unique_feeds`'s loop over the raw rows. -/
def _unique_feeds_loop : List Observation → List Str → List Str → List Str × List Str
  | [], feeds, addresses => (feeds.dedup, addresses)
  | item :: rest, feeds, addresses =>
    let feeds := feeds ++ [item.feed_id]
    let addresses :=
      if item.address ∈ addresses then addresses else addresses ++ [item.address]
    _unique_feeds_loop rest feeds addresses

/-- `reports._get_unique_feeds`: `list(set(...))` of every feed (order
of the set enumeration irrelevant downstream, modelled by `dedup`), and
the distinct addresses in first-seen order. -/
def _get_unique_feeds (data : List Observation) : List Str × List Str :=
  _unique_feeds_loop data [] []

/-- The coverage-unit key `f"{feed}|{minutes}"` with
`minutes = item[1].rsplit(":", 1)[0].strip()` and
`feed = item[2].strip()`. -/
def minuteKey (item : Observation) : Str :=
  stripChars item.feed_id ++ ('|' :: stripChars (rsplitLast ':' item.date_time))

/-- Inner loop of `_get_addr_minute_feed_dicts`: one scan of `data` for
a fixed `addr`, updating both dicts per matching row. -/
def _gamfd_items (addr : Str) : List Observation → PyDict × PyDict → PyDict × PyDict
  | [], dicts => dicts
  | item :: rest, (amv, afv) =>
    if item.address = addr then
      _gamfd_items addr rest
        (update_dict amv addr (minuteKey item),
         update_dict afv addr (stripChars item.feed_id))
    else
      _gamfd_items addr rest (amv, afv)

/-- Outer loop of `_get_addr_minute_feed_dicts` over the sorted
addresses. -/
def _gamfd_addrs (data : List Observation) : List Str → PyDict × PyDict → PyDict × PyDict
  | [], dicts => dicts
  | addr :: rest, dicts => _gamfd_addrs data rest (_gamfd_items addr data dicts)

/-- `reports._get_addr_minute_feed_dicts` (the function sorts the
address list in place before scanning). -/
def _get_addr_minute_feed_dicts (data : List Observation) (addresses : List Str) :
    PyDict × PyDict :=
  _gamfd_addrs data (pySorted strLt addresses) ([], [])

/-- Loop of `_get_license_and_stake`, threading the `license_name` and
`staking` locals (both start as `None`; the loop has no `break`, so the
last matching record wins). -/
def _gls_loop (addr : Str) : List LicenseHolder → Option Str × Option Nat →
    Option Str × Option Nat
  | [], acc => acc
  | h :: rest, acc =>
    _gls_loop addr rest
      (if h.staking ≠ addr then acc
       else (some (List.intercalate [',', ' '] h.licenses), some h.staked))

/-- `reports._get_license_and_stake`: `", ".join(licenses)` and the
staked amount of the matching record, `(None, None)` when none
matches. -/
def _get_license_and_stake (address_data : List LicenseHolder) (addr : Str) :
    Option Str × Option Nat :=
  _gls_loop addr address_data (none, none)

/-! ## reports.py — report assembly -/

/-- The per-address value dictionary `counts[addr]` built by
`_process_json_report`. -/
structure ParticipantStats where
  license : Option Str
  stake : Option Nat
  total_data_points : Nat
  average_mins_collecting_per_feed : Nat
  total_mins_in_date_range : Int
  number_of_feeds_collected : Nat
  feeds_count : List Str
deriving DecidableEq, Repr

/-- The report dictionary returned by `_process_json_report` (`end` is a
Lean keyword, so that key is called `endDate` here). -/
structure Report where
  start : Str
  endDate : Str
  expected_number_of_feeds : Nat
  max_possible_data_points : Int
  data : List (Str × ParticipantStats)
  expected_feeds : List Str
  total_days_in_date_range : Int
deriving DecidableEq, Repr

/-- `collections.Counter(l).items()`: distinct elements in
first-occurrence order, each with its total count. -/
def counterItems (l : List Str) : List (Str × Nat) :=
  (firstDedup l).map (fun k => (k, l.count k))

/-- One `f"{key}: {value}"` entry of the `feeds_count` list. -/
def feedCountEntry (kv : Str × Nat) : Str :=
  kv.1 ++ (':' :: ' ' :: (Nat.repr kv.2).toList)

/-- The `for addr, value in addr_minute_values.items()` loop of
`_process_json_report`.  Per iteration the source computes
`total_mins = len(set(value))`, then
`average_mins = total_mins / len(set(feeds))` — a `ZeroDivisionError`
(`none`) when the feed set is empty — then looks `addr` up in
`addr_feed_values` (a `KeyError`, `none`, when absent).
`int(average_mins)` truncates the non-negative float quotient, which
equals `Nat` division (the float quotient is exact at reporting
magnitudes). -/
def _report_counts (address_data : List LicenseHolder) (minutes_in_range : Int)
    (nfeeds : Nat) (addr_feed_values : PyDict) :
    List (Str × List Str) → Option (List (Str × ParticipantStats))
  | [] => some []
  | (addr, value) :: rest =>
    if nfeeds = 0 then none
    else
      match dlookup addr addr_feed_values with
      | none => none
      | some fl =>
        let total_mins := value.dedup.length
        let ls := _get_license_and_stake address_data addr
        let stats : ParticipantStats :=
          { license := ls.1
            stake := ls.2
            total_data_points := total_mins
            average_mins_collecting_per_feed := total_mins / nfeeds
            total_mins_in_date_range := minutes_in_range
            number_of_feeds_collected := fl.dedup.length
            feeds_count := (counterItems fl).map feedCountEntry }
        match _report_counts address_data minutes_in_range nfeeds addr_feed_values rest with
        | none => none
        | some tail => some ((addr, stats) :: tail)

/-- `reports._process_json_report`.  `days_in_range` is the float
quotient `minutes_in_range / MINUTES_DAY`, truncated toward zero by
`int(...)` at the end; `get_minutes` only ever produces whole-day minute
counts, for which the float quotient is an exact integer, so the
truncation is modelled by `Int.tdiv`. -/
def _process_json_report (address_data : List LicenseHolder)
    (date_start date_end : Str) (addr_minute_values addr_feed_values : PyDict)
    (feeds : List Str) : Option Report :=
  match get_minutes date_start date_end with
  | none => none
  | some minutes_in_range =>
    match _report_counts address_data minutes_in_range (feeds.dedup.length)
        addr_feed_values addr_minute_values with
    | none => none
    | some counts =>
      some
        { start := date_start
          endDate := date_end
          expected_number_of_feeds := feeds.length
          max_possible_data_points := minutes_in_range * (feeds.length : Int)
          data := counts
          expected_feeds := feeds
          total_days_in_date_range := minutes_in_range.tdiv (MINUTES_DAY : Int) }

/-- The pure core of `reports.get_participants_counts_date_range`: the
database fetch and the kupo-backed `_get_basic_addr_data` call are
collaborators, so the raw rows and the collated `address_data` are
parameters; everything from `_get_unique_feeds` on is the source's
pipeline. -/
def get_participants_counts_date_range (address_data : List LicenseHolder)
    (date_start date_end : Str) (data : List Observation) : Option Report :=
  let fa := _get_unique_feeds data
  let dicts := _get_addr_minute_feed_dicts data fa.2
  let addr_minute_values := dedupe_dicts dicts.1
  _process_json_report address_data date_start date_end addr_minute_values dicts.2 fa.1

/-! ## reports.py — CSV generation (the indexed write of
`generate_participant_count_csv`) -/

/-- One CSV feed cell:
`",".join([c.strip() for c in count.split(":")])`. -/
def feedCell (count : Str) : Str :=
  List.intercalate [','] ((splitOnChar ':' count).map stripChars)

/-- The `for idx, count in enumerate(value.get("feeds_count", []))` loop
writing into `participant_feeds`; `participant_feeds[idx] = ...` raises
`IndexError` (`none`) when `idx` is out of range. -/
def _fill_feed_cols (cols : List Str) (idx : Nat) : List Str → Option (List Str)
  | [] => some cols
  | count :: rest =>
    if idx < cols.length then
      _fill_feed_cols (cols.set idx (feedCell count)) (idx + 1) rest
    else none

/-- The per-participant feed-column list of
`generate_participant_count_csv`: `participant_feeds = [""] * max_feeds`
followed by the indexed writes. -/
def participant_feeds (max_feeds : Nat) (feeds_count : List Str) :
    Option (List Str) :=
  _fill_feed_cols (List.replicate max_feeds []) 0 feeds_count

/-! ## Derived closed forms used by the theorems -/

/-- The rows of `data` belonging to one address. -/
def addrRows (data : List Observation) (addr : Str) : List Observation :=
  data.filter (fun o => decide (o.address = addr))

/-- The coverage-unit keys an address accumulates in
`addr_minute_values` (with duplicates, in row order). -/
def addrKeysL (data : List Observation) (addr : Str) : List Str :=
  (addrRows data addr).map minuteKey

/-- The stripped feeds an address accumulates in `addr_feed_values`. -/
def addrFeedsL (data : List Observation) (addr : Str) : List Str :=
  (addrRows data addr).map (fun o => stripChars o.feed_id)

/-- Number of distinct raw feed identifiers in the batch. -/
def distinctFeeds (data : List Observation) : Nat :=
  ((data.map (fun o => o.feed_id)).dedup).length

/-- Closed form of the stats record `_report_counts` builds for an
address whose deduplicated key list is `value` and whose feed list is
`fl`. -/
def reportStats (address_data : List LicenseHolder) (addr : Str) (m : Int)
    (nfeeds : Nat) (fl value : List Str) : ParticipantStats :=
  { license := (_get_license_and_stake address_data addr).1
    stake := (_get_license_and_stake address_data addr).2
    total_data_points := value.dedup.length
    average_mins_collecting_per_feed := value.dedup.length / nfeeds
    total_mins_in_date_range := m
    number_of_feeds_collected := fl.dedup.length
    feeds_count := (counterItems fl).map feedCountEntry }

/-! ## Sorting lemmas -/

theorem stableInsert_perm (lt : α → α → Bool) (x : α) (l : List α) :
    (stableInsert lt x l).Perm (x :: l) := by
  induction l with
  | nil => simp [stableInsert]
  | cons y ys ih =>
    by_cases h : lt x y
    · simp [stableInsert, h]
    · simp only [stableInsert, h, if_neg]
      exact (ih.cons y).trans (List.Perm.swap x y ys)

theorem pySorted_foldl_perm (lt : α → α → Bool) (l acc : List α) :
    (l.foldl (fun a x => stableInsert lt x a) acc).Perm (acc ++ l) := by
  induction l generalizing acc with
  | nil => simp
  | cons x xs ih =>
    simp only [List.foldl_cons]
    refine (ih (stableInsert lt x acc)).trans ?_
    refine (List.Perm.append_right xs (stableInsert_perm lt x acc)).trans ?_
    exact List.perm_middle.symm

theorem pySorted_perm (lt : α → α → Bool) (l : List α) :
    (pySorted lt l).Perm l := by
  simpa using pySorted_foldl_perm lt l []

theorem mem_pySorted (lt : α → α → Bool) (l : List α) (a : α) :
    a ∈ pySorted lt l ↔ a ∈ l :=
  (pySorted_perm lt l).mem_iff

theorem nodup_pySorted (lt : α → α → Bool) (l : List α) (h : l.Nodup) :
    (pySorted lt l).Nodup :=
  (pySorted_perm lt l).nodup_iff.mpr h

theorem map_stableInsert (lt : α → α → Bool) (lt' : β → β → Bool) (f : α → β)
    (hc : ∀ a b, lt a b = lt' (f a) (f b)) (x : α) (l : List α) :
    (stableInsert lt x l).map f = stableInsert lt' (f x) (l.map f) := by
  induction l with
  | nil => simp [stableInsert]
  | cons y ys ih =>
    simp only [stableInsert, List.map_cons, hc]
    by_cases h : lt' (f x) (f y)
    · simp [h]
    · simp [h, ih]

theorem map_pySorted_foldl (lt : α → α → Bool) (lt' : β → β → Bool) (f : α → β)
    (hc : ∀ a b, lt a b = lt' (f a) (f b)) (l acc : List α) :
    (l.foldl (fun a x => stableInsert lt x a) acc).map f =
      (l.map f).foldl (fun a x => stableInsert lt' x a) (acc.map f) := by
  induction l generalizing acc with
  | nil => simp
  | cons x xs ih =>
    simp only [List.foldl_cons, List.map_cons]
    rw [ih, map_stableInsert lt lt' f hc]

theorem map_pySorted (lt : α → α → Bool) (lt' : β → β → Bool) (f : α → β)
    (hc : ∀ a b, lt a b = lt' (f a) (f b)) (l : List α) :
    (pySorted lt l).map f = pySorted lt' (l.map f) := by
  simpa using map_pySorted_foldl lt lt' f hc l []

/-! ## Dictionary lemmas -/

theorem dlookup_append (k : Str) (d1 d2 : List (Str × β)) :
    dlookup k (d1 ++ d2) = (dlookup k d1).orElse (fun _ => dlookup k d2) := by
  induction d1 with
  | nil => simp [dlookup]
  | cons e rest ih =>
    obtain ⟨k', v⟩ := e
    by_cases h : k' = k <;> simp [dlookup, h, ih]

theorem update_dict_not_mem (d : PyDict) (key : Str) (v : Str)
    (h : dlookup key d = none) : update_dict d key v = d ++ [(key, [v])] := by
  induction d with
  | nil => simp [update_dict]
  | cons e rest ih =>
    obtain ⟨k', vs⟩ := e
    simp only [dlookup] at h
    by_cases hk : k' = key
    · simp [hk] at h
    · simp only [update_dict, hk, if_false, List.cons_append, List.cons.injEq, true_and,
        ite_false]
      exact ih (by simpa [hk] using h)

theorem update_dict_append_last (d : PyDict) (key : Str) (vs : List Str) (v : Str)
    (h : dlookup key d = none) :
    update_dict (d ++ [(key, vs)]) key v = d ++ [(key, vs ++ [v])] := by
  induction d with
  | nil => simp [update_dict]
  | cons e rest ih =>
    obtain ⟨k', vs'⟩ := e
    simp only [dlookup] at h
    by_cases hk : k' = key
    · simp [hk] at h
    · simp only [List.cons_append, update_dict, hk, if_false, List.cons.injEq, true_and,
        ite_false]
      exact ih (by simpa [hk] using h)

theorem foldl_update_existing (amv : PyDict) (addr : Str) (vs ks : List Str)
    (h : dlookup addr amv = none) :
    ks.foldl (fun d k => update_dict d addr k) (amv ++ [(addr, vs)]) =
      amv ++ [(addr, vs ++ ks)] := by
  induction ks generalizing vs with
  | nil => simp
  | cons k ks ih =>
    simp only [List.foldl_cons]
    rw [update_dict_append_last amv addr vs k h, ih (vs ++ [k])]
    simp

theorem foldl_update_fresh (amv : PyDict) (addr : Str) (ks : List Str)
    (h : dlookup addr amv = none) :
    ks.foldl (fun d k => update_dict d addr k) amv =
      if ks = [] then amv else amv ++ [(addr, ks)] := by
  cases ks with
  | nil => simp
  | cons k ks =>
    simp only [List.foldl_cons, List.cons_ne_self, if_neg, reduceCtorEq]
    rw [update_dict_not_mem amv addr k h, foldl_update_existing amv addr [k] ks h]
    simp

theorem dlookup_keyed_map (k : Str) (g : Str → β) (L : List Str) :
    dlookup k (L.map (fun a => (a, g a))) =
      if k ∈ L then some (g k) else none := by
  induction L with
  | nil => simp [dlookup]
  | cons a rest ih =>
    by_cases h : a = k
    · subst h; simp [dlookup, ih]
    · simp [dlookup, h, ih, Ne.symm h]

/-! ## Closed forms for `_get_addr_minute_feed_dicts` -/

theorem gamfd_items_fst (addr : Str) (data : List Observation) (amv afv : PyDict) :
    (_gamfd_items addr data (amv, afv)).1 =
      (addrKeysL data addr).foldl (fun d k => update_dict d addr k) amv := by
  induction data generalizing amv afv with
  | nil => simp [_gamfd_items, addrKeysL, addrRows]
  | cons item rest ih =>
    by_cases h : item.address = addr
    · simp only [_gamfd_items, h, if_pos, addrKeysL, addrRows, List.filter_cons_of_pos,
        decide_eq_true_eq, List.map_cons, List.foldl_cons]
      exact ih (update_dict amv addr (minuteKey item)) _
    · rw [addrKeysL, addrRows, List.filter_cons_of_neg (by simpa using h)]
      simp only [_gamfd_items, h, ite_false]
      exact ih amv afv

theorem gamfd_items_snd (addr : Str) (data : List Observation) (amv afv : PyDict) :
    (_gamfd_items addr data (amv, afv)).2 =
      (addrFeedsL data addr).foldl (fun d k => update_dict d addr k) afv := by
  induction data generalizing amv afv with
  | nil => simp [_gamfd_items, addrFeedsL, addrRows]
  | cons item rest ih =>
    by_cases h : item.address = addr
    · simp only [_gamfd_items, h, if_pos, addrFeedsL, addrRows, List.filter_cons_of_pos,
        decide_eq_true_eq, List.map_cons, List.foldl_cons]
      exact ih _ (update_dict afv addr (stripChars item.feed_id))
    · rw [addrFeedsL, addrRows, List.filter_cons_of_neg (by simpa using h)]
      simp only [_gamfd_items, h, ite_false]
      exact ih amv afv

theorem gamfd_items_pair (addr : Str) (data : List Observation) (amv afv : PyDict) :
    _gamfd_items addr data (amv, afv) =
      ((addrKeysL data addr).foldl (fun d k => update_dict d addr k) amv,
       (addrFeedsL data addr).foldl (fun d k => update_dict d addr k) afv) :=
  Prod.ext (gamfd_items_fst addr data amv afv) (gamfd_items_snd addr data amv afv)

theorem gamfd_addrs_fst (data : List Observation) (addrs : List Str)
    (amv0 afv0 : PyDict) (hf : ∀ a ∈ addrs, dlookup a amv0 = none)
    (hnd : addrs.Nodup) :
    (_gamfd_addrs data addrs (amv0, afv0)).1 =
      amv0 ++ (addrs.filter (fun a => decide (addrKeysL data a ≠ []))).map
        (fun a => (a, addrKeysL data a)) := by
  induction addrs generalizing amv0 afv0 with
  | nil => simp [_gamfd_addrs]
  | cons addr rest ih =>
    obtain ⟨hnotin, hndr⟩ := List.nodup_cons.mp hnd
    have hstep : _gamfd_addrs data (addr :: rest) (amv0, afv0) =
        _gamfd_addrs data rest (_gamfd_items addr data (amv0, afv0)) := rfl
    rw [hstep, gamfd_items_pair,
      foldl_update_fresh amv0 addr _ (hf addr (by simp))]
    by_cases hk : addrKeysL data addr = []
    · rw [if_pos hk, ih _ _ (fun a ha => hf a (by simp [ha])) hndr,
        List.filter_cons_of_neg (by simpa using hk)]
    · rw [if_neg hk, ih _ _ ?fresh hndr,
        List.filter_cons_of_pos (by simpa using hk)]
      · simp
      case fresh =>
        intro a ha
        rw [dlookup_append]
        have hne : addr ≠ a := fun he => hnotin (he ▸ ha)
        simp [hf a (by simp [ha]), dlookup, hne]

theorem gamfd_addrs_snd (data : List Observation) (addrs : List Str)
    (amv0 afv0 : PyDict) (hf : ∀ a ∈ addrs, dlookup a afv0 = none)
    (hnd : addrs.Nodup) :
    (_gamfd_addrs data addrs (amv0, afv0)).2 =
      afv0 ++ (addrs.filter (fun a => decide (addrFeedsL data a ≠ []))).map
        (fun a => (a, addrFeedsL data a)) := by
  induction addrs generalizing amv0 afv0 with
  | nil => simp [_gamfd_addrs]
  | cons addr rest ih =>
    obtain ⟨hnotin, hndr⟩ := List.nodup_cons.mp hnd
    have hstep : _gamfd_addrs data (addr :: rest) (amv0, afv0) =
        _gamfd_addrs data rest (_gamfd_items addr data (amv0, afv0)) := rfl
    rw [hstep, gamfd_items_pair,
      foldl_update_fresh afv0 addr _ (hf addr (by simp))]
    by_cases hk : addrFeedsL data addr = []
    · rw [if_pos hk, ih _ _ (fun a ha => hf a (by simp [ha])) hndr,
        List.filter_cons_of_neg (by simpa using hk)]
    · rw [if_neg hk, ih _ _ ?fresh hndr,
        List.filter_cons_of_pos (by simpa using hk)]
      · simp
      case fresh =>
        intro a ha
        rw [dlookup_append]
        have hne : addr ≠ a := fun he => hnotin (he ▸ ha)
        simp [hf a (by simp [ha]), dlookup, hne]

/-! ## `_get_unique_feeds` lemmas -/

theorem unique_feeds_loop_fst (data : List Observation) (fs as : List Str) :
    (_unique_feeds_loop data fs as).1 =
      (fs ++ data.map (fun o => o.feed_id)).dedup := by
  induction data generalizing fs as with
  | nil => simp [_unique_feeds_loop]
  | cons item rest ih =>
    simp only [_unique_feeds_loop, ih, List.map_cons]
    congr 1
    simp

theorem unique_feeds_loop_snd_mem (data : List Observation) (fs as : List Str)
    (a : Str) :
    a ∈ (_unique_feeds_loop data fs as).2 ↔
      a ∈ as ∨ ∃ o ∈ data, o.address = a := by
  induction data generalizing fs as with
  | nil => simp [_unique_feeds_loop]
  | cons item rest ih =>
    simp only [_unique_feeds_loop]
    by_cases h : item.address ∈ as
    · rw [if_pos h, ih]
      constructor
      · rintro (ha | ho)
        · exact Or.inl ha
        · exact Or.inr ⟨_, by simp [ho.choose_spec.1], ho.choose_spec.2⟩
      · rintro (ha | ⟨o, ho, hoa⟩)
        · exact Or.inl ha
        · rcases List.mem_cons.mp ho with he | ht
          · exact Or.inl (by rw [← hoa, he]; exact h)
          · exact Or.inr ⟨o, ht, hoa⟩
    · rw [if_neg h, ih]
      constructor
      · rintro (ha | ho)
        · rcases List.mem_append.mp ha with h1 | h2
          · exact Or.inl h1
          · exact Or.inr ⟨item, by simp, (List.mem_singleton.mp h2).symm⟩
        · exact Or.inr ⟨_, by simp [ho.choose_spec.1], ho.choose_spec.2⟩
      · rintro (ha | ⟨o, ho, hoa⟩)
        · exact Or.inl (List.mem_append.mpr (Or.inl ha))
        · rcases List.mem_cons.mp ho with he | ht
          · exact Or.inl (List.mem_append.mpr (Or.inr (by simp [← hoa, he])))
          · exact Or.inr ⟨o, ht, hoa⟩

theorem unique_feeds_loop_snd_nodup (data : List Observation) (fs as : List Str)
    (h : as.Nodup) : (_unique_feeds_loop data fs as).2.Nodup := by
  induction data generalizing fs as with
  | nil => simpa [_unique_feeds_loop] using h
  | cons item rest ih =>
    simp only [_unique_feeds_loop]
    by_cases hm : item.address ∈ as
    · rw [if_pos hm]; exact ih _ _ h
    · rw [if_neg hm]
      exact ih _ _ (by simp [List.nodup_append, h, hm])

/-! ## Pipeline closed form -/

/-- The sorted distinct addresses the pipeline iterates over. -/
def sortedAddresses (data : List Observation) : List Str :=
  pySorted strLt (_get_unique_feeds data).2

/-- The addresses that end up as keys of both accumulated dicts. -/
def activeAddresses (data : List Observation) : List Str :=
  (sortedAddresses data).filter (fun a => decide (addrKeysL data a ≠ []))

theorem mem_sortedAddresses (data : List Observation) (a : Str) :
    a ∈ sortedAddresses data ↔ ∃ o ∈ data, o.address = a := by
  rw [sortedAddresses, mem_pySorted]
  simpa using unique_feeds_loop_snd_mem data [] [] a

theorem sortedAddresses_nodup (data : List Observation) :
    (sortedAddresses data).Nodup :=
  nodup_pySorted _ _ (unique_feeds_loop_snd_nodup data [] [] (by simp))

theorem addrKeysL_ne_nil (data : List Observation) (a : Str) :
    addrKeysL data a ≠ [] ↔ ∃ o ∈ data, o.address = a := by
  rw [addrKeysL, addrRows]
  simp [List.map_eq_nil_iff, List.filter_eq_nil_iff]

theorem addrFeedsL_ne_nil (data : List Observation) (a : Str) :
    addrFeedsL data a ≠ [] ↔ ∃ o ∈ data, o.address = a := by
  rw [addrFeedsL, addrRows]
  simp [List.map_eq_nil_iff, List.filter_eq_nil_iff]

theorem mem_activeAddresses (data : List Observation) (a : Str) :
    a ∈ activeAddresses data ↔ addrKeysL data a ≠ [] := by
  rw [activeAddresses, List.mem_filter]
  simp only [decide_eq_true_eq]
  constructor
  · exact fun h => h.2
  · intro h
    exact ⟨(mem_sortedAddresses data a).mpr ((addrKeysL_ne_nil data a).mp h), h⟩

theorem pipeline_dicts (data : List Observation) :
    _get_addr_minute_feed_dicts data (_get_unique_feeds data).2 =
      ((activeAddresses data).map (fun a => (a, addrKeysL data a)),
       (activeAddresses data).map (fun a => (a, addrFeedsL data a))) := by
  rw [_get_addr_minute_feed_dicts]
  have hnd : (pySorted strLt (_get_unique_feeds data).2).Nodup :=
    sortedAddresses_nodup data
  refine Prod.ext ?_ ?_
  · rw [gamfd_addrs_fst data _ [] [] (fun a _ => rfl) hnd]
    simp [activeAddresses, sortedAddresses]
  · rw [gamfd_addrs_snd data _ [] [] (fun a _ => rfl) hnd]
    simp only [List.nil_append]
    have hcong : (pySorted strLt (_get_unique_feeds data).2).filter
          (fun a => decide (addrFeedsL data a ≠ [])) =
        (pySorted strLt (_get_unique_feeds data).2).filter
          (fun a => decide (addrKeysL data a ≠ [])) := by
      refine List.filter_congr ?_
      intro a _
      simp only [decide_eq_decide]
      rw [addrFeedsL_ne_nil, addrKeysL_ne_nil]
    rw [hcong]
    simp [activeAddresses, sortedAddresses]

theorem unique_feeds_fst (data : List Observation) :
    (_get_unique_feeds data).1 = (data.map (fun o => o.feed_id)).dedup := by
  simpa using unique_feeds_loop_fst data [] []

/-! ## `_report_counts` closed form -/

theorem report_counts_eq (ad : List LicenseHolder) (m : Int) (nfeeds : Nat)
    (afv : PyDict) (entries : List (Str × List Str)) (hn : nfeeds ≠ 0)
    (hl : ∀ e ∈ entries, (dlookup e.1 afv).isSome = true) :
    _report_counts ad m nfeeds afv entries =
      some (entries.map (fun e =>
        (e.1, reportStats ad e.1 m nfeeds ((dlookup e.1 afv).getD []) e.2))) := by
  induction entries with
  | nil => simp [_report_counts]
  | cons e rest ih =>
    obtain ⟨addr, value⟩ := e
    have hs : (dlookup addr afv).isSome = true := hl (addr, value) (List.mem_cons_self _ _)
    obtain ⟨fl, hfl⟩ := Option.isSome_iff_exists.mp hs
    simp only [_report_counts, hn, ite_false, hfl,
      ih (fun e he => hl e (by simp [he])), List.map_cons]
    rfl

theorem dedupe_keyed_map (g : Str → List Str) (L : List Str) :
    dedupe_dicts (L.map (fun a => (a, g a))) =
      L.map (fun a => (a, (g a).dedup)) := by
  simp [dedupe_dicts, List.map_map]

theorem pipeline_unfold (ad : List LicenseHolder) (ds de : Str)
    (data : List Observation) :
    get_participants_counts_date_range ad ds de data =
      _process_json_report ad ds de
        (dedupe_dicts (_get_addr_minute_feed_dicts data (_get_unique_feeds data).2).1)
        (_get_addr_minute_feed_dicts data (_get_unique_feeds data).2).2
        (_get_unique_feeds data).1 := rfl

/-- The report entry list the pipeline produces, in closed form. -/
def pipelineData (ad : List LicenseHolder) (m : Int) (data : List Observation) :
    List (Str × ParticipantStats) :=
  (activeAddresses data).map (fun a =>
    (a, reportStats ad a m (distinctFeeds data) (addrFeedsL data a)
      (addrKeysL data a).dedup))

/-- Master closed form: whenever the two date strings parse, the whole
report pipeline succeeds (no `ZeroDivisionError`, no `KeyError`) and
every field of the report is as below. -/
theorem report_master (ad : List LicenseHolder) (ds de : Str)
    (data : List Observation) (m : Int) (hm : get_minutes ds de = some m) :
    get_participants_counts_date_range ad ds de data =
      some { start := ds
             endDate := de
             expected_number_of_feeds := distinctFeeds data
             max_possible_data_points := m * (distinctFeeds data : Int)
             data := pipelineData ad m data
             expected_feeds := (data.map (fun o => o.feed_id)).dedup
             total_days_in_date_range := m.tdiv (MINUTES_DAY : Int) } := by
  rw [pipeline_unfold, pipeline_dicts data, unique_feeds_fst data]
  simp only [dedupe_keyed_map]
  by_cases hz : distinctFeeds data = 0
  · have hmap : data.map (fun o => o.feed_id) = [] := by
      rw [distinctFeeds] at hz
      exact (List.dedup_eq_nil _).mp (List.length_eq_zero.mp hz)
    have hdata : data = [] := List.map_eq_nil_iff.mp hmap
    subst hdata
    simp [_process_json_report, hm, _report_counts, pipelineData, activeAddresses,
      sortedAddresses, _get_unique_feeds, _unique_feeds_loop, pySorted, hz]
  · have hafvl : ∀ e ∈ (activeAddresses data).map
        (fun a => (a, (addrKeysL data a).dedup)),
        (dlookup e.1 ((activeAddresses data).map
          (fun a => (a, addrFeedsL data a)))).isSome = true := by
      intro e he
      obtain ⟨a, ha, rfl⟩ := List.mem_map.mp he
      rw [dlookup_keyed_map, if_pos ha]
      rfl
    have hnf : ((data.map (fun o => o.feed_id)).dedup).dedup.length ≠ 0 := by
      rw [List.dedup_idem]
      exact hz
    simp only [_process_json_report, hm]
    rw [report_counts_eq ad m _ _ _ hnf hafvl]
    have hdata_eq : ((activeAddresses data).map
          (fun a => (a, (addrKeysL data a).dedup))).map
        (fun e => (e.1, reportStats ad e.1 m
          ((data.map (fun o => o.feed_id)).dedup.dedup.length)
          ((dlookup e.1 ((activeAddresses data).map
            (fun a => (a, addrFeedsL data a)))).getD []) e.2)) =
        pipelineData ad m data := by
      rw [pipelineData, List.map_map]
      refine List.map_congr_left ?_
      intro a ha
      simp only [Function.comp_apply]
      rw [dlookup_keyed_map, if_pos ha, List.dedup_idem]
      rfl
    rw [hdata_eq]
    rfl

/-! ## Date arithmetic lemmas -/

theorem pipelineData_lookup (ad : List LicenseHolder) (m : Int)
    (data : List Observation) (k : Str) :
    dlookup k (pipelineData ad m data) =
      if addrKeysL data k = [] then none
      else some (reportStats ad k m (distinctFeeds data) (addrFeedsL data k)
        (addrKeysL data k).dedup) := by
  rw [pipelineData, dlookup_keyed_map]
  by_cases h : addrKeysL data k = []
  · rw [if_pos h, if_neg (fun hm => ((mem_activeAddresses data k).mp hm) h)]
  · rw [if_neg h, if_pos ((mem_activeAddresses data k).mpr h)]

set_option maxHeartbeats 1000000 in
theorem daysBeforeYear_succ (y : Nat) (hy : 1 ≤ y) :
    daysBeforeYear (y + 1) =
      daysBeforeYear y + 365 + (if isLeap y then 1 else 0) := by
  obtain ⟨k, rfl⟩ : ∃ k, y = k + 1 := ⟨y - 1, by omega⟩
  simp only [daysBeforeYear, Nat.add_sub_cancel, isLeap, Bool.or_eq_true,
    Bool.and_eq_true, beq_iff_eq, bne_iff_ne, ne_eq]
  split_ifs <;> omega

theorem daysBeforeYear_le_succ (y : Nat) :
    daysBeforeYear y ≤ daysBeforeYear (y + 1) := by
  rcases Nat.eq_zero_or_pos y with h | h
  · subst h; simp [daysBeforeYear]
  · rw [daysBeforeYear_succ y h]; omega

theorem daysBeforeYear_mono {a b : Nat} (h : a ≤ b) :
    daysBeforeYear a ≤ daysBeforeYear b := by
  induction h with
  | refl => exact le_refl _
  | step h ih => exact le_trans ih (daysBeforeYear_le_succ _)

theorem daysBeforeMonth_step (leap : Bool) : ∀ ma < 13, ∀ mb < 13,
    1 ≤ ma → ma < mb →
    daysBeforeMonth leap ma + daysInMonth leap ma ≤ daysBeforeMonth leap mb := by
  cases leap <;> decide

theorem daysBeforeMonth_add_le (leap : Bool) : ∀ m < 13, 1 ≤ m →
    daysBeforeMonth leap m + daysInMonth leap m ≤
      365 + (if leap then 1 else 0) := by
  cases leap <;> decide

theorem toordinal_lt_toordinal (a b : Date) (ha : validDate a = true)
    (hb : validDate b = true) (hlt : dateLt a b) :
    toordinal a < toordinal b := by
  obtain ⟨y1, m1, e1⟩ := a
  obtain ⟨y2, m2, e2⟩ := b
  simp only [validDate, Bool.and_eq_true, decide_eq_true_eq] at ha hb
  obtain ⟨⟨⟨⟨⟨hay1, hay2⟩, ham1⟩, ham2⟩, had1⟩, had2⟩ := ha
  obtain ⟨⟨⟨⟨⟨hby1, hby2⟩, hbm1⟩, hbm2⟩, hbd1⟩, hbd2⟩ := hb
  rcases hlt with hy | ⟨hy, hm | ⟨hm, hd⟩⟩
  · simp only at hy
    have h1 : daysBeforeMonth (isLeap y1) m1 + e1 ≤
        365 + (if isLeap y1 then 1 else 0) :=
      le_trans (by omega)
        (daysBeforeMonth_add_le (isLeap y1) m1 (by omega) ham1)
    have h2 : daysBeforeYear (y1 + 1) =
        daysBeforeYear y1 + 365 + (if isLeap y1 then 1 else 0) :=
      daysBeforeYear_succ y1 hay1
    have h3 : daysBeforeYear (y1 + 1) ≤ daysBeforeYear y2 :=
      daysBeforeYear_mono hy
    simp only [toordinal]
    omega
  · simp only at hy hm
    subst hy
    have h1 : daysBeforeMonth (isLeap y1) m1 + daysInMonth (isLeap y1) m1 ≤
        daysBeforeMonth (isLeap y1) m2 :=
      daysBeforeMonth_step (isLeap y1) m1 (by omega) m2 (by omega) ham1 hm
    simp only [toordinal]
    omega
  · simp only at hy hm hd
    subst hy
    subst hm
    simp only [toordinal]
    omega

theorem parseDate_valid (s : Str) (d : Date) (h : parseDate s = some d) :
    validDate d = true := by
  unfold parseDate at h
  split at h
  · split at h
    · split at h
      · cases h
        assumption
      · exact absurd h (by simp)
    · exact absurd h (by simp)
  · exact absurd h (by simp)

theorem get_minutes_eq (ds de : Str) (d1 d2 : Date) (h1 : parseDate ds = some d1)
    (h2 : parseDate de = some d2) :
    get_minutes ds de =
      some (((toordinal d2 : Int) - (toordinal d1 : Int)) * (MINUTES_DAY : Int)) := by
  simp [get_minutes, h1, h2]

theorem get_minutes_dvd (ds de : Str) (m : Int) (h : get_minutes ds de = some m) :
    (MINUTES_DAY : Int) ∣ m := by
  unfold get_minutes at h
  cases hp1 : parseDate ds with
  | none => rw [hp1] at h; simp at h
  | some d1 =>
    cases hp2 : parseDate de with
    | none => rw [hp1, hp2] at h; simp at h
    | some d2 =>
      rw [hp1, hp2] at h
      simp only [Option.some.injEq] at h
      exact Dvd.intro_left _ h

theorem get_minutes_neg (ds de : Str) (d1 d2 : Date) (h1 : parseDate ds = some d1)
    (h2 : parseDate de = some d2) (hlt : dateLt d2 d1) :
    ∃ m : Int, get_minutes ds de = some m ∧ m < 0 := by
  refine ⟨_, get_minutes_eq ds de d1 d2 h1 h2, ?_⟩
  have hord : toordinal d2 < toordinal d1 :=
    toordinal_lt_toordinal d2 d1 (parseDate_valid de d2 h2)
      (parseDate_valid ds d1 h1) hlt
  have hneg : ((toordinal d2 : Int) - (toordinal d1 : Int)) < 0 := by
    omega
  have : (0 : Int) < (MINUTES_DAY : Int) := by norm_num [MINUTES_DAY]
  exact mul_neg_of_neg_of_pos hneg this

/-! ## Observation triples (address, feed, minute-truncated timestamp) -/

/-- The (address, feed, minute-truncated timestamp) triple of a raw
observation; two rows are duplicates in the sense of the deduplicator
precisely when their triples coincide. -/
def obsTriple (o : Observation) : Str × Str × Str :=
  (o.address, o.feed_id, rsplitLast ':' o.date_time)

/-- The coverage-unit key determined by a triple. -/
def keyFromTriple (t : Str × Str × Str) : Str :=
  stripChars t.2.1 ++ ('|' :: stripChars t.2.2)

theorem minuteKey_eq_keyFromTriple (o : Observation) :
    minuteKey o = keyFromTriple (obsTriple o) := rfl

theorem mem_addrKeysL (data : List Observation) (addr k : Str) :
    k ∈ addrKeysL data addr ↔
      ∃ t ∈ data.map obsTriple, t.1 = addr ∧ keyFromTriple t = k := by
  simp only [addrKeysL, addrRows, List.mem_map, List.mem_filter,
    decide_eq_true_eq]
  constructor
  · rintro ⟨o, ⟨ho, ha⟩, hk⟩
    exact ⟨obsTriple o, ⟨o, ho, rfl⟩, ha, hk⟩
  · rintro ⟨t, ⟨o, ho, rfl⟩, ha, hk⟩
    exact ⟨o, ⟨ho, ha⟩, hk⟩

theorem addrKeysL_toFinset_eq (data1 data2 : List Observation) (addr : Str)
    (h : (data1.map obsTriple).toFinset = (data2.map obsTriple).toFinset) :
    (addrKeysL data1 addr).toFinset = (addrKeysL data2 addr).toFinset := by
  ext k
  simp only [List.mem_toFinset, mem_addrKeysL]
  constructor
  · rintro ⟨t, ht, hp⟩
    refine ⟨t, ?_, hp⟩
    have := List.mem_toFinset.mpr ht
    rw [h] at this
    exact List.mem_toFinset.mp this
  · rintro ⟨t, ht, hp⟩
    refine ⟨t, ?_, hp⟩
    have := List.mem_toFinset.mpr ht
    rw [← h] at this
    exact List.mem_toFinset.mp this

theorem list_eq_nil_iff_toFinset (l : List Str) : l = [] ↔ l.toFinset = ∅ := by
  constructor
  · rintro rfl; simp
  · intro h
    cases l with
    | nil => rfl
    | cons a t =>
      exfalso
      have : a ∈ (a :: t).toFinset := by simp
      rw [h] at this
      exact absurd this (Finset.not_mem_empty a)

/-! ## `_get_license_and_stake` without a match -/

theorem gls_loop_no_match (addr : Str) (l : List LicenseHolder)
    (acc : Option Str × Option Nat) (h : ∀ x ∈ l, x.staking ≠ addr) :
    _gls_loop addr l acc = acc := by
  induction l generalizing acc with
  | nil => rfl
  | cons x rest ih =>
    have hx : x.staking ≠ addr := h x (by simp)
    show _gls_loop addr rest (if x.staking ≠ addr then acc else _) = acc
    rw [if_pos hx]
    exact ih acc (fun y hy => h y (by simp [hy]))

theorem get_license_and_stake_none (ad : List LicenseHolder) (addr : Str)
    (h : ∀ x ∈ ad, x.staking ≠ addr) :
    _get_license_and_stake ad addr = (none, none) :=
  gls_loop_no_match addr ad (none, none) h

/-! ## `firstDedup` facts -/

theorem mem_firstDedup (l : List Str) (x : Str) : x ∈ firstDedup l ↔ x ∈ l := by
  induction l with
  | nil => simp [firstDedup]
  | cons a t ih =>
    simp only [firstDedup, List.mem_cons, List.mem_filter, ih,
      decide_eq_true_eq]
    by_cases hx : x = a
    · simp [hx]
    · simp [hx]

theorem firstDedup_nodup (l : List Str) : (firstDedup l).Nodup := by
  induction l with
  | nil => simp [firstDedup]
  | cons a t ih =>
    simp only [firstDedup, List.nodup_cons]
    refine ⟨?_, ih.filter _⟩
    intro hmem
    have := (List.mem_filter.mp hmem).2
    simp at this

theorem firstDedup_length (l : List Str) :
    (firstDedup l).length = l.dedup.length := by
  have h1 : (firstDedup l).toFinset = l.toFinset := by
    ext x; simp [mem_firstDedup]
  have h2 : (firstDedup l).toFinset.card = (firstDedup l).length :=
    List.toFinset_card_of_nodup (firstDedup_nodup l)
  rw [← h2, h1, List.card_toFinset]

/-! ## Feed-column fill bound -/

theorem fill_feed_cols_isSome (l : List Str) (cols : List Str) (idx : Nat)
    (h : idx + l.length ≤ cols.length) :
    (_fill_feed_cols cols idx l).isSome = true := by
  induction l generalizing cols idx with
  | nil => simp [_fill_feed_cols]
  | cons c rest ih =>
    simp only [List.length_cons] at h
    have hlt : idx < cols.length := by omega
    simp only [_fill_feed_cols, hlt, ite_true]
    exact ih _ (idx + 1) (by rw [List.length_set]; omega)

theorem participant_feeds_isSome (max_feeds : Nat) (fc : List Str)
    (h : fc.length ≤ max_feeds) :
    (participant_feeds max_feeds fc).isSome = true :=
  fill_feed_cols_isSome fc _ 0 (by simpa using h)

/-! ## Entitlement collation lemmas -/

theorem mem_fst_isSome (d : List (Str × β)) (k : Str)
    (h : k ∈ d.map (fun kv => kv.1)) : (dlookup k d).isSome = true := by
  induction d with
  | nil => exact absurd h (by simp)
  | cons e rest ih =>
    obtain ⟨k', v⟩ := e
    by_cases hk : k' = k
    · simp [dlookup, hk]
    · simp only [dlookup, hk, ite_false]
      apply ih
      simp only [List.map_cons, List.mem_cons] at h
      rcases h with h | h
      · exact absurd h.symm hk
      · exact h

theorem collate_loop_staking (staked : List (Str × Nat))
    (licenses : List (Str × Str)) (aliases : List Alias) (hs : List Str)
    (h : ∀ a ∈ hs, (dlookup a staked).isSome = true) :
    ∃ l, _collate_loop staked licenses aliases hs = some l ∧
      l.map (fun x => x.staking) = hs := by
  induction hs with
  | nil => exact ⟨[], rfl, rfl⟩
  | cons holder rest ih =>
    obtain ⟨stake, hst⟩ :=
      Option.isSome_iff_exists.mp (h holder (by simp))
    obtain ⟨tl, htl, hmap⟩ := ih (fun a ha => h a (by simp [ha]))
    have hstep : _collate_loop staked licenses aliases (holder :: rest) =
        some (⟨holder, stake / 1000000,
          (licenses.filter (fun kv => kv.2 = holder)).map (fun kv => kv.1),
          if aliases.isEmpty then [] else _search_aliases aliases holder⟩ :: tl) := by
      simp only [_collate_loop, hst, htl]
    exact ⟨_, hstep, by simp [hmap]⟩

/-- Every staking address in `_get_all_alias_addr_data`'s output, as a
characterisation of list membership. -/
theorem gaaad_mem (staked : List (Str × Nat)) (licenses : List (Str × Str))
    (aliases : List Alias) (addr : Str) :
    ∃ res, _get_all_alias_addr_data staked licenses aliases = some res ∧
      (addr ∈ res.map (fun x => x.staking) ↔
        addr ∈ licenses.map (fun kv => kv.2) ∧
          addr ∈ staked.map (fun kv => kv.1)) := by
  rw [_get_all_alias_addr_data, _collate_simple]
  set holders := ((licenses.map (fun kv => kv.2)).filter
    (fun a : Str => decide (a ∈ staked.map (fun kv => kv.1)))).dedup with hh
  have hmem : ∀ a, a ∈ holders ↔
      a ∈ licenses.map (fun kv => kv.2) ∧ a ∈ staked.map (fun kv => kv.1) := by
    intro a
    rw [hh]
    simp [List.mem_dedup, List.mem_filter]
  have hlook : ∀ a ∈ pySorted strLt holders, (dlookup a staked).isSome = true := by
    intro a ha
    exact mem_fst_isSome staked a ((hmem a).mp ((mem_pySorted strLt holders a).mp ha)).2
  obtain ⟨l, hl, hmap⟩ := collate_loop_staking staked licenses aliases _ hlook
  refine ⟨pySorted holderLt l, by rw [hl], ?_⟩
  have hperm : ((pySorted holderLt l).map (fun x => x.staking)).Perm
      (l.map (fun x => x.staking)) :=
    (pySorted_perm holderLt l).map _
  rw [hperm.mem_iff, hmap, mem_pySorted, hmem]

/-- `holderLt` factors through the alias-free projection. -/
def holderPublic (h : LicenseHolder) : Str × Nat × List Str :=
  (h.staking, h.staked, h.licenses)

def publicLt (a b : Str × Nat × List Str) : Bool :=
  licListLt a.2.2 b.2.2

theorem collate_loop_public (staked : List (Str × Nat))
    (licenses : List (Str × Str)) (a1 a2 : List Alias) (hs : List Str) :
    (_collate_loop staked licenses a1 hs).map (List.map holderPublic) =
      (_collate_loop staked licenses a2 hs).map (List.map holderPublic) := by
  induction hs with
  | nil => rfl
  | cons holder rest ih =>
    simp only [_collate_loop]
    cases hst : dlookup holder staked with
    | none => rfl
    | some stake =>
      cases h1 : _collate_loop staked licenses a1 rest with
      | none =>
        cases h2 : _collate_loop staked licenses a2 rest with
        | none => rfl
        | some t2 => rw [h1, h2] at ih; simp at ih
      | some t1 =>
        cases h2 : _collate_loop staked licenses a2 rest with
        | none => rw [h1, h2] at ih; simp at ih
        | some t2 =>
          rw [h1, h2] at ih
          simp only [Option.map_some', Option.some.injEq] at ih
          simp only [Option.map_some', Option.some.injEq, List.map_cons, ih,
            List.cons.injEq, and_true]
          rfl

theorem gaaad_public (staked : List (Str × Nat)) (licenses : List (Str × Str))
    (a1 a2 : List Alias) :
    (_get_all_alias_addr_data staked licenses a1).map (List.map holderPublic) =
      (_get_all_alias_addr_data staked licenses a2).map (List.map holderPublic) := by
  rw [_get_all_alias_addr_data, _get_all_alias_addr_data,
    _collate_simple, _collate_simple]
  have hloop := collate_loop_public staked licenses a1 a2
    (pySorted strLt (((licenses.map (fun kv => kv.2)).filter
      (fun a : Str => decide (a ∈ staked.map (fun kv => kv.1)))).dedup))
  cases h1 : _collate_loop staked licenses a1 (pySorted strLt _) with
  | none =>
    cases h2 : _collate_loop staked licenses a2 (pySorted strLt _) with
    | none => rfl
    | some t2 => rw [h1, h2] at hloop; simp at hloop
  | some t1 =>
    cases h2 : _collate_loop staked licenses a2 (pySorted strLt _) with
    | none => rw [h1, h2] at hloop; simp at hloop
    | some t2 =>
      rw [h1, h2] at hloop
      simp only [Option.map_some', Option.some.injEq] at hloop
      simp only [Option.map_some', Option.some.injEq]
      rw [map_pySorted holderLt publicLt holderPublic (fun a b => rfl) t1,
        map_pySorted holderLt publicLt holderPublic (fun a b => rfl) t2, hloop]

/-! ## rsplit on second-resolution timestamps -/

theorem dropWhile_no_sep (l r : Str) (h : ∀ c ∈ l, c ≠ ':') :
    (l ++ ':' :: r).dropWhile (fun x => x ≠ ':') = ':' :: r := by
  induction l with
  | nil => simp [List.dropWhile]
  | cons c t ih =>
    have hc : c ≠ ':' := h c (by simp)
    simp only [List.cons_append, List.dropWhile, hc]
    simpa [hc] using ih (fun x hx => h x (by simp [hx]))

theorem rsplitLast_drop_seconds (p s : Str) (hns : ':' ∉ s) :
    rsplitLast ':' (p ++ ':' :: s) = p := by
  unfold rsplitLast
  rw [List.reverse_append, List.reverse_cons, List.append_assoc,
    List.singleton_append,
    dropWhile_no_sep s.reverse (p.reverse) (fun c hc => by
      intro he
      exact hns (he ▸ List.mem_reverse.mp hc))]
  simp

theorem pipeline_none (ad : List LicenseHolder) (ds de : Str)
    (data : List Observation) (hm : get_minutes ds de = none) :
    get_participants_counts_date_range ad ds de data = none := by
  rw [pipeline_unfold]
  simp [_process_json_report, hm]

/-! ## Claim theorems -/

/-- The `total_data_points` reported for `addr`, `none` when the report
fails or the address has no entry. -/
def reportTotalAt (ad : List LicenseHolder) (ds de : Str)
    (data : List Observation) (addr : Str) : Option Nat :=
  (get_participants_counts_date_range ad ds de data).bind
    (fun rep => (dlookup addr rep.data).map (fun st => st.total_data_points))

/-- Claim C1: for every batch of raw observations, observations sharing
the same address, feed and minute-truncated timestamp contribute exactly
one unit to that address's `total_data_points`: any two batches with the
same set of (address, feed, minute) triples — in particular a batch and
its deduplication, in any insertion order — give every address the same
`total_data_points`. -/
theorem claim1_dedup_invariant (ad : List LicenseHolder) (ds de : Str)
    (data1 data2 : List Observation) (addr : Str)
    (h : (data1.map obsTriple).toFinset = (data2.map obsTriple).toFinset) :
    reportTotalAt ad ds de data1 addr = reportTotalAt ad ds de data2 addr := by
  cases hm : get_minutes ds de with
  | none =>
    rw [reportTotalAt, reportTotalAt, pipeline_none ad ds de data1 hm,
      pipeline_none ad ds de data2 hm]
  | some m =>
    rw [reportTotalAt, reportTotalAt, report_master ad ds de data1 m hm,
      report_master ad ds de data2 m hm]
    simp only [Option.some_bind]
    rw [pipelineData_lookup, pipelineData_lookup]
    have hts := addrKeysL_toFinset_eq data1 data2 addr h
    have hnil : (addrKeysL data1 addr = []) ↔ (addrKeysL data2 addr = []) := by
      rw [list_eq_nil_iff_toFinset, list_eq_nil_iff_toFinset, hts]
    by_cases h1 : addrKeysL data1 addr = []
    · rw [if_pos h1, if_pos (hnil.mp h1)]
    · rw [if_neg h1, if_neg (fun h2 => h1 (hnil.mpr h2))]
      simp only [Option.map_some', reportStats, Option.some.injEq]
      rw [List.dedup_idem, List.dedup_idem, ← List.card_toFinset,
        ← List.card_toFinset, hts]

/-- Sample rows and dates used by the witnesses (Scenario A of the
spec: two observations of the same feed in the same minute). -/
def wObsA : Observation :=
  ⟨"addr1".toList, "2024-01-01T00:00:00".toList, "f1".toList⟩

def wObsB : Observation :=
  ⟨"addr1".toList, "2024-01-01T00:00:30".toList, "f1".toList⟩

def wStart : Str := "2024-01-01".toList

def wEnd : Str := "2024-01-02".toList

/-- Witness for C1: the duplicated batch and its deduplication report
the same total for `addr1`. -/
theorem claim1_witness :
    ([wObsA, wObsB].map obsTriple).toFinset = ([wObsA].map obsTriple).toFinset ∧
    reportTotalAt [] wStart wEnd [wObsA, wObsB] "addr1".toList =
      reportTotalAt [] wStart wEnd [wObsA] "addr1".toList :=
  ⟨by decide, claim1_dedup_invariant [] wStart wEnd [wObsA, wObsB] [wObsA]
    "addr1".toList (by decide)⟩

/-- Claim C2: for every report generated from parseable dates,
`max_possible_data_points` is the minute count returned by
`get_minutes` times `expected_number_of_feeds`, which is the number of
distinct feed identifiers in the batch. -/
theorem claim2_max_possible (ad : List LicenseHolder) (ds de : Str)
    (data : List Observation) (m : Int) (hm : get_minutes ds de = some m) :
    ∃ rep, get_participants_counts_date_range ad ds de data = some rep ∧
      rep.expected_number_of_feeds = distinctFeeds data ∧
      rep.max_possible_data_points = m * (rep.expected_number_of_feeds : Int) :=
  ⟨_, report_master ad ds de data m hm, rfl, rfl⟩

/-- Witness for C2 at Scenario A: 1440 minutes, one feed. -/
theorem claim2_witness :
    get_minutes wStart wEnd = some 1440 ∧
    ∃ rep, get_participants_counts_date_range [] wStart wEnd [wObsA, wObsB] =
        some rep ∧
      rep.expected_number_of_feeds = distinctFeeds [wObsA, wObsB] ∧
      rep.max_possible_data_points = 1440 * (rep.expected_number_of_feeds : Int) :=
  ⟨by decide,
   claim2_max_possible [] wStart wEnd [wObsA, wObsB] 1440 (by decide)⟩

/-- Claim C3: when the batch's distinct feed set is empty the report
still assembles (no `ZeroDivisionError`), its per-address section is
empty — so the division by the feed-set size is unreachable — and
(vacuously) every per-address average is `0`. -/
theorem claim3_zero_feed_guard (ad : List LicenseHolder) (ds de : Str)
    (data : List Observation) (m : Int) (hm : get_minutes ds de = some m)
    (hf : distinctFeeds data = 0) :
    ∃ rep, get_participants_counts_date_range ad ds de data = some rep ∧
      rep.data = [] ∧
      ∀ p ∈ rep.data, p.2.average_mins_collecting_per_feed = 0 := by
  have hdata : data = [] :=
    List.map_eq_nil_iff.mp
      ((List.dedup_eq_nil _).mp (List.length_eq_zero.mp hf))
  subst hdata
  refine ⟨_, report_master ad ds de [] m hm, ?hempty, ?_⟩
  case hempty =>
    simp [pipelineData, activeAddresses, sortedAddresses, _get_unique_feeds,
      _unique_feeds_loop, pySorted]
  intro p hp
  simp [pipelineData, activeAddresses, sortedAddresses, _get_unique_feeds,
    _unique_feeds_loop, pySorted] at hp

/-- Witness for C3: the empty batch (Scenario C). -/
theorem claim3_witness :
    get_minutes wStart wEnd = some 1440 ∧ distinctFeeds [] = 0 ∧
    ∃ rep, get_participants_counts_date_range [] wStart wEnd [] = some rep ∧
      rep.data = [] ∧
      ∀ p ∈ rep.data, p.2.average_mins_collecting_per_feed = 0 :=
  ⟨by decide, rfl, claim3_zero_feed_guard [] wStart wEnd [] 1440 (by decide) rfl⟩

/-- Claim C4: the collated entitlement list succeeds and its staking
addresses are exactly the intersection of the license map's values with
the stake map's keys; an address in only one of the two never
appears. -/
theorem claim4_intersection (staked : List (Str × Nat))
    (licenses : List (Str × Str)) (aliases : List Alias) (addr : Str) :
    ∃ res, _get_all_alias_addr_data staked licenses aliases = some res ∧
      (addr ∈ res.map (fun x => x.staking) ↔
        addr ∈ licenses.map (fun kv => kv.2) ∧
          addr ∈ staked.map (fun kv => kv.1)) :=
  gaaad_mem staked licenses aliases addr

/-- Claim C5: with both dates valid but the end date strictly earlier
than the start date, `get_minutes` is negative and the report still
assembles, passing the negative minute count into
`max_possible_data_points` and every entry's
`total_mins_in_date_range`. -/
theorem claim5_negative_range (ds de : Str) (d1 d2 : Date)
    (h1 : parseDate ds = some d1) (h2 : parseDate de = some d2)
    (hlt : dateLt d2 d1) (ad : List LicenseHolder) (data : List Observation) :
    ∃ m rep, get_minutes ds de = some m ∧ m < 0 ∧
      get_participants_counts_date_range ad ds de data = some rep ∧
      rep.max_possible_data_points = m * (rep.expected_number_of_feeds : Int) ∧
      ∀ p ∈ rep.data, p.2.total_mins_in_date_range = m := by
  obtain ⟨m, hm, hneg⟩ := get_minutes_neg ds de d1 d2 h1 h2 hlt
  refine ⟨m, _, hm, hneg, report_master ad ds de data m hm, rfl, ?_⟩
  intro p hp
  obtain ⟨a, ha, rfl⟩ := List.mem_map.mp hp
  rfl

/-- Witness for C5 at Scenario D: start 2024-02-01, end 2024-01-01. -/
theorem claim5_witness :
    parseDate "2024-02-01".toList = some ⟨2024, 2, 1⟩ ∧
    parseDate "2024-01-01".toList = some ⟨2024, 1, 1⟩ ∧
    dateLt ⟨2024, 1, 1⟩ ⟨2024, 2, 1⟩ ∧
    ∃ m rep, get_minutes "2024-02-01".toList "2024-01-01".toList = some m ∧
      m < 0 ∧
      get_participants_counts_date_range [] "2024-02-01".toList
        "2024-01-01".toList [wObsA] = some rep ∧
      rep.max_possible_data_points = m * (rep.expected_number_of_feeds : Int) ∧
      ∀ p ∈ rep.data, p.2.total_mins_in_date_range = m :=
  ⟨by decide, by decide, by decide,
   claim5_negative_range "2024-02-01".toList "2024-01-01".toList ⟨2024, 2, 1⟩
     ⟨2024, 1, 1⟩ (by decide) (by decide) (by decide) [] [wObsA]⟩

/-- Claim C6: `total_days_in_date_range` equals the mathematical floor
of the minute count over 1440, also for negative minute counts: the
source's `int(...)` truncation agrees with the floor because
`get_minutes` always returns a whole multiple of 1440. -/
theorem claim6_total_days_floor (ad : List LicenseHolder) (ds de : Str)
    (data : List Observation) (m : Int) (rep : Report)
    (hm : get_minutes ds de = some m)
    (hr : get_participants_counts_date_range ad ds de data = some rep) :
    rep.total_days_in_date_range = Int.fdiv m 1440 := by
  rw [report_master ad ds de data m hm, Option.some.injEq] at hr
  rw [← hr]
  show m.tdiv (MINUTES_DAY : Int) = Int.fdiv m 1440
  obtain ⟨k, rfl⟩ := get_minutes_dvd ds de m hm
  have h1440 : (MINUTES_DAY : Int) = 1440 := rfl
  rw [h1440, Int.mul_tdiv_cancel_left k (by norm_num),
    Int.mul_fdiv_cancel_left k (by norm_num)]

/-- The report of the empty batch over Scenario A's range. -/
def wRepEmpty : Report :=
  { start := wStart
    endDate := wEnd
    expected_number_of_feeds := 0
    max_possible_data_points := 0
    data := []
    expected_feeds := []
    total_days_in_date_range := 1 }

/-- Witness for C6: one whole day gives `floor(1440 / 1440) = 1`. -/
theorem claim6_witness :
    get_minutes wStart wEnd = some 1440 ∧
    get_participants_counts_date_range [] wStart wEnd [] = some wRepEmpty ∧
    wRepEmpty.total_days_in_date_range = Int.fdiv 1440 1440 :=
  ⟨by decide, by decide,
   claim6_total_days_floor [] wStart wEnd [] 1440 wRepEmpty (by decide) (by decide)⟩

/-- Counterexample to C7 as stated: with minute-resolution timestamps
(no seconds field) the key keeps only the part before the LAST colon,
dropping the minutes, so two observations of the same feed in the same
hour but different minutes collapse to one coverage-unit key. -/
theorem claim7_counterexample :
    minuteKey ⟨"addr1".toList, "2024-01-01 10:01".toList, "f1".toList⟩ =
      minuteKey ⟨"addr1".toList, "2024-01-01 10:02".toList, "f1".toList⟩ ∧
    minuteKey ⟨"addr1".toList, "2024-01-01 10:01".toList, "f1".toList⟩ =
      "f1|2024-01-01 10".toList ∧
    ("2024-01-01 10:01".toList : Str) ≠ "2024-01-01 10:02".toList := by
  decide

/-- Claim C7 (amended): the coverage-unit key is the stripped feed
joined with the timestamp truncated at its last colon; for a timestamp
carrying a final colon-separated field (e.g. second resolution
`HH:MM:SS`) this drops exactly that final field, and two observations of
the same feed whose truncated timestamps differ — such as second
resolution stamps in the same hour but different minutes — never
collapse to one coverage unit. -/
theorem claim7_truncation (o1 o2 : Observation) (p1 s1 p2 s2 : Str)
    (h1 : o1.date_time = p1 ++ ':' :: s1) (hn1 : ':' ∉ s1)
    (h2 : o2.date_time = p2 ++ ':' :: s2) (hn2 : ':' ∉ s2) :
    minuteKey o1 = stripChars o1.feed_id ++ ('|' :: stripChars p1) ∧
    minuteKey o2 = stripChars o2.feed_id ++ ('|' :: stripChars p2) ∧
    (o1.feed_id = o2.feed_id → stripChars p1 ≠ stripChars p2 →
      minuteKey o1 ≠ minuteKey o2) := by
  have k1 : minuteKey o1 = stripChars o1.feed_id ++ ('|' :: stripChars p1) := by
    rw [minuteKey, h1, rsplitLast_drop_seconds p1 s1 hn1]
  have k2 : minuteKey o2 = stripChars o2.feed_id ++ ('|' :: stripChars p2) := by
    rw [minuteKey, h2, rsplitLast_drop_seconds p2 s2 hn2]
  refine ⟨k1, k2, ?_⟩
  intro hf hpne heq
  rw [k1, k2, hf] at heq
  have hcons := List.append_cancel_left heq
  exact hpne (List.cons.injEq _ _ _ _ ▸ hcons).2

/-- Witness for C7 (amended) at second-resolution timestamps in the same
hour but different minutes. -/
theorem claim7_witness :
    (wObsA.date_time = "2024-01-01T00:00".toList ++ ':' :: "00".toList) ∧
    ':' ∉ "00".toList ∧
    (minuteKey wObsA = stripChars wObsA.feed_id ++
      ('|' :: stripChars "2024-01-01T00:00".toList)) :=
  ⟨by decide, by decide,
   (claim7_truncation wObsA wObsA "2024-01-01T00:00".toList "00".toList
     "2024-01-01T00:00".toList "00".toList (by decide) (by decide)
     (by decide) (by decide)).1⟩

/-- Claim C8: an address with at least one observation but no matching
entitlement record still gets a report entry, with `license` and `stake`
both `None`; it is never dropped. -/
theorem claim8_missing_entitlement (ad : List LicenseHolder) (ds de : Str)
    (data : List Observation) (addr : Str) (m : Int)
    (hm : get_minutes ds de = some m)
    (hobs : ∃ o ∈ data, o.address = addr)
    (hno : ∀ x ∈ ad, x.staking ≠ addr) :
    ∃ rep stats, get_participants_counts_date_range ad ds de data = some rep ∧
      dlookup addr rep.data = some stats ∧
      stats.license = none ∧ stats.stake = none := by
  have hkeys : addrKeysL data addr ≠ [] := (addrKeysL_ne_nil data addr).mpr hobs
  have hlook : dlookup addr (pipelineData ad m data) =
      some (reportStats ad addr m (distinctFeeds data) (addrFeedsL data addr)
        (addrKeysL data addr).dedup) := by
    rw [pipelineData_lookup, if_neg hkeys]
  have hgls : _get_license_and_stake ad addr = (none, none) :=
    get_license_and_stake_none ad addr hno
  refine ⟨_, _, report_master ad ds de data m hm, hlook, ?_, ?_⟩ <;>
    simp [reportStats, hgls]

/-- Witness for C8: `addr1` observes but the entitlement list is
empty. -/
theorem claim8_witness :
    get_minutes wStart wEnd = some 1440 ∧
    (∃ o ∈ [wObsA], o.address = "addr1".toList) ∧
    (∀ x ∈ ([] : List LicenseHolder), x.staking ≠ "addr1".toList) ∧
    ∃ rep stats,
      get_participants_counts_date_range [] wStart wEnd [wObsA] = some rep ∧
      dlookup "addr1".toList rep.data = some stats ∧
      stats.license = none ∧ stats.stake = none :=
  ⟨by decide, ⟨wObsA, by decide, by decide⟩, by simp,
   claim8_missing_entitlement [] wStart wEnd [wObsA] "addr1".toList 1440
     (by decide) ⟨wObsA, by decide, by decide⟩ (by simp)⟩

/-- Claim C9: for a fixed stake map and license map, any two alias lists
produce entitlement lists with the same staking addresses in the same
order, the same staked amounts and the same license sets — the
alias-free projections of the two results coincide (so only the `alias`
field can differ). -/
theorem claim9_alias_independent (staked : List (Str × Nat))
    (licenses : List (Str × Str)) (a1 a2 : List Alias) :
    (_get_all_alias_addr_data staked licenses a1).map (List.map holderPublic) =
      (_get_all_alias_addr_data staked licenses a2).map (List.map holderPublic) :=
  gaaad_public staked licenses a1 a2

/-- Claim C10: every report entry's `feeds_count` list is no longer than
`expected_number_of_feeds`, so the CSV generator's indexed write into
its `[""] * max_feeds` column list never goes out of range. -/
theorem claim10_feed_columns_safe (ad : List LicenseHolder) (ds de : Str)
    (data : List Observation) (m : Int) (hm : get_minutes ds de = some m) :
    ∃ rep, get_participants_counts_date_range ad ds de data = some rep ∧
      ∀ p ∈ rep.data, p.2.feeds_count.length ≤ rep.expected_number_of_feeds ∧
        (participant_feeds rep.expected_number_of_feeds p.2.feeds_count).isSome
          = true := by
  refine ⟨_, report_master ad ds de data m hm, ?_⟩
  intro p hp
  obtain ⟨a, ha, rfl⟩ := List.mem_map.mp hp
  have htfm : ∀ (f : Str → Str) (l : List Str),
      (l.map f).toFinset = l.toFinset.image f := by
    intro f l
    ext x
    simp [List.mem_toFinset, List.mem_map, Finset.mem_image]
  have hsub : ((addrRows data a).map (fun o => o.feed_id)).toFinset ⊆
      (data.map (fun o => o.feed_id)).toFinset := by
    intro x hx
    rw [List.mem_toFinset] at hx ⊢
    obtain ⟨o, ho, rfl⟩ := List.mem_map.mp hx
    rw [addrRows] at ho
    exact List.mem_map_of_mem _ ((List.filter_sublist data).subset ho)
  have himg : (addrFeedsL data a).toFinset =
      (((addrRows data a).map (fun o => o.feed_id)).toFinset).image stripChars := by
    rw [addrFeedsL, ← htfm stripChars]
    congr 1
    rw [List.map_map]
    rfl
  have hlen : (addrFeedsL data a).dedup.length ≤ distinctFeeds data := by
    rw [distinctFeeds, ← List.card_toFinset, ← List.card_toFinset, himg]
    exact le_trans (Finset.card_image_le) (Finset.card_le_card hsub)
  have hfc : ((counterItems (addrFeedsL data a)).map feedCountEntry).length ≤
      distinctFeeds data := by
    rw [List.length_map, counterItems, List.length_map, firstDedup_length]
    exact hlen
  exact ⟨hfc, participant_feeds_isSome _ _ hfc⟩

/-- Witness for C10 at Scenario A. -/
theorem claim10_witness :
    get_minutes wStart wEnd = some 1440 ∧
    ∃ rep,
      get_participants_counts_date_range [] wStart wEnd [wObsA, wObsB] =
        some rep ∧
      ∀ p ∈ rep.data, p.2.feeds_count.length ≤ rep.expected_number_of_feeds ∧
        (participant_feeds rep.expected_number_of_feeds p.2.feeds_count).isSome
          = true :=
  ⟨by decide, claim10_feed_columns_safe [] wStart wEnd [wObsA, wObsB] 1440
    (by decide)⟩
